import Mathlib

/-!
Shallow embedding of `src/vcm.py` (class `VersionControlManager`) and the parts of
its environment its behaviour depends on: the repository tag store (a list of tag
name strings) and the `semver` library's `VersionInfo` value type (parse, compare,
bump operations).

Modelling notes, each justified against the source:

* A repository is its list of tag names (`Repo := List String`).  Commit objects,
  tag annotation messages and the `ref=` argument of `create_tag` are ignored: no
  claim depends on them.  Tag names are assumed to contain no surrounding
  whitespace (git forbids whitespace in ref names), so the `.strip()` calls in
  `find_tag` / `find_tag_with_pattern` are identity.
* Python's `re` patterns are instantiated at each call site, so each pattern used
  by the manager is embedded as a dedicated matching function.  The fixed grammars
  contain no backtracking ambiguity (`\d+`, `[a-z]+` runs are delimited by
  characters outside the class), so deterministic longest-munch parsing is exact.
* `find_tag` interpolates the queried tag name into `"^" + tag + "$"` WITHOUT
  escaping.  Every query string the manager constructs is version-shaped (digits,
  dots, dashes, lowercase letters), whose only regex metacharacter is `.`
  (match-any-character); `dotMatchChars` embeds exactly that semantics.
  The same applies to the base-version prefix of `get_current_rc_patch`'s pattern.
* `semver.VersionInfo.parse` follows SemVer 2.0.0: numeric components are
  `0|[1-9]\d*` (NO leading zeros), unlike the manager's lenient `\d+` grammars.
  Every string the manager ever parses has the shape `X.Y.Z` or
  `X.Y.Z-<lowercase-channel>.<ordinal>`; `parseSemver` is exact on that shape
  (including rejecting leading zeros in all four numeric fields) and rejects
  everything else, as the library does for those inputs.
* Python exceptions are modelled by `Except`: `ValueError` (format errors raised
  explicitly and by `semver` parsing), `InvalidTagCreation` with its message, and
  the `UnboundLocalError` that `increment_rc_patch` hits when `prerelease_tag` is
  neither `"rc"` nor `"patch"`.  Mutating operations return the result together
  with the resulting repository; a raise happens before any tag creation, so the
  repository is returned unchanged on every error path, mirroring the code.
* Where the Python code returns a `semver.VersionInfo` object rather than a
  string (the bump branches), the embedding returns its `str()` rendering, which
  is what is stored as the created tag's name.
-/

namespace Vcm

/-! ## Digits, decimal rendering and parsing of natural numbers -/

/-- Value of a digit string, as Python's `int()` on a run of ASCII digits. -/
def natOfDigits (l : List Char) : Nat :=
  l.foldl (fun n c => n * 10 + (c.toNat - 48)) 0

/-- Fuel-driven decimal rendering helper (most significant digit first). -/
def natCharsAux : Nat → Nat → List Char
  | 0, _ => []
  | _ + 1, 0 => []
  | fuel + 1, n + 1 => natCharsAux fuel ((n + 1) / 10) ++ [Nat.digitChar ((n + 1) % 10)]

/-- Decimal rendering of a natural number, as Python's `str()` on an `int`. -/
def natChars (n : Nat) : List Char :=
  if n = 0 then ['0'] else natCharsAux n n

/-! ## The regex grammars of `vcm.py`, as deterministic matchers -/

/-- The rest of a pattern position after a digit run: empty, or starting with a
non-digit (used to state where greedy digit matching stops). -/
def headNotDigit : List Char → Bool
  | [] => true
  | c :: _ => !c.isDigit

/-- Consume a nonempty maximal run of ASCII digits (`\d+`); return it and the rest. -/
def eatNum (s : List Char) : Option (List Char × List Char) :=
  let d := s.takeWhile Char.isDigit
  if d.isEmpty then none else some (d, s.dropWhile Char.isDigit)

/-- The common prefix `(\d+)\.(\d+)\.(\d+)` of every grammar in `vcm.py`;
returns the three digit runs and the unconsumed suffix. -/
def matchBase (s : List Char) : Option (List Char × List Char × List Char × List Char) :=
  match eatNum s with
  | some (a, '.' :: r1) =>
    match eatNum r1 with
    | some (b, '.' :: r2) =>
      match eatNum r2 with
      | some (c, r3) => some (a, b, c, r3)
      | none => none
    | _ => none
  | _ => none

/-- Grammar tail `(\d+)$`: the rest of the string is one nonempty digit run. -/
def endsNumOnly (r : List Char) : Bool :=
  match eatNum r with
  | some (_, []) => true
  | _ => false

/-- Embedding of `re.fullmatch(r"^(\d+)\.(\d+)\.(\d+)$", s)`, the production grammar. -/
def matchesProd (s : String) : Bool :=
  match matchBase s.data with
  | some (_, _, _, []) => true
  | _ => false

/-- Embedding of `re.fullmatch(r"^(\d+)\.(\d+)\.(\d+)-([a-z]+)\.(\d+)$", s)`, the prerelease grammar. -/
def matchesPre (s : String) : Bool :=
  match matchBase s.data with
  | some (_, _, _, '-' :: r) =>
    !(r.takeWhile Char.isLower).isEmpty &&
      (match r.dropWhile Char.isLower with
       | '.' :: r2 => endsNumOnly r2
       | _ => false)
  | _ => false

/-- Consume an exact literal character sequence; return the rest. -/
def stripLit : List Char → List Char → Option (List Char)
  | [], s => some s
  | _ :: _, [] => none
  | p :: ps, c :: cs => if p = c then stripLit ps cs else none

/-- Pattern `^(\d+)\.(\d+)\.(\d+)-CHAN\.(\d+)$` with the channel name spliced in verbatim,
as `get_current_tag` builds it.  Faithful for channel names made of lowercase
letters (all channels used by the manager and the claims); a channel containing
regex metacharacters is undefined behaviour in the source as well (spec 4.1). -/
def matchesChan (chan : String) (s : String) : Bool :=
  match matchBase s.data with
  | some (_, _, _, '-' :: r) =>
    match stripLit chan.data r with
    | some ('.' :: r2) => endsNumOnly r2
    | _ => false
  | _ => false

/-- Embedding of `re.fullmatch(r"^(\d+)\.(\d+)\.(\d+)-(rc|patch)\.(\d+)$", s)` of
`create_prod_tag`; `some true` when group 4 is `patch`, `some false` for `rc`. -/
def matchPromote (s : String) : Option Bool :=
  match matchBase s.data with
  | some (_, _, _, '-' :: r) =>
    match stripLit ['r', 'c'] r with
    | some ('.' :: r2) => if endsNumOnly r2 then some false else none
    | _ =>
      match stripLit ['p', 'a', 't', 'c', 'h'] r with
      | some ('.' :: r2) => if endsNumOnly r2 then some true else none
      | _ => none
  | _ => none

/-- Full match of an unescaped pattern built from a version-shaped string, where
`.` is the only metacharacter and matches any single character. -/
def dotMatchChars : List Char → List Char → Bool
  | [], [] => true
  | p :: ps, c :: cs => (p = '.' || p = c) && dotMatchChars ps cs
  | _, _ => false

/-- Consume a dot-wildcard pattern prefix; return the unconsumed suffix. -/
def stripDotMatch : List Char → List Char → Option (List Char)
  | [], s => some s
  | _ :: _, [] => none
  | p :: ps, c :: cs => if p = '.' || p = c then stripDotMatch ps cs else none

/-- Pattern `^BASE-CHAN\.(\d+)$` as `get_current_rc_patch` builds it: the validated
`X.Y.Z` base is spliced in unescaped, so its dots match any character. -/
def matchesRcPatch (base chan : String) (s : String) : Bool :=
  match stripDotMatch base.data s.data with
  | some ('-' :: r) =>
    match stripLit chan.data r with
    | some ('.' :: r2) => endsNumOnly r2
    | _ => false
  | _ => false

/-! ## The `semver` library value type -/

/-- The `semver.VersionInfo` value type restricted to the shapes occurring in this system:
an optional prerelease of exactly one channel identifier and one numeric ordinal.
Build metadata never occurs (no grammar admits `+`). -/
structure VersionInfo where
  major : Nat
  minor : Nat
  patch : Nat
  prerelease : Option (String × Nat)
  deriving Repr, DecidableEq

/-- SemVer numeric component `0|[1-9]\d*`: a digit run with no leading zero. -/
def strictNum? (d : List Char) : Option Nat :=
  if d.isEmpty then none
  else if d.head? = some '0' ∧ d.length ≠ 1 then none
  else some (natOfDigits d)

/-- A channel name acceptable to every grammar here: nonempty lowercase letters. -/
def chanOK (ch : String) : Bool :=
  !ch.data.isEmpty && ch.data.all Char.isLower

/-- Parse the prerelease part `channel.N` (channel nonempty lowercase letters,
`N` a SemVer numeric identifier without leading zeros). -/
def parsePreTail (r : List Char) : Option (String × Nat) :=
  if (r.takeWhile Char.isLower).isEmpty then none
  else
    match r.dropWhile Char.isLower with
    | '.' :: r2 =>
      match eatNum r2 with
      | some (d, []) =>
        match strictNum? d with
        | some N => some (String.mk (r.takeWhile Char.isLower), N)
        | none => none
      | _ => none
    | _ => none

/-- Parse what follows `X.Y.Z`: nothing, or `-channel.N`. -/
def parseTail : List Char → Option (Option (String × Nat))
  | [] => some none
  | '-' :: r =>
    match parsePreTail r with
    | some pr => some (some pr)
    | none => none
  | _ => none

/-- Embedding of `semver.VersionInfo.parse` on the tag shapes reachable in `vcm.py`:
`X.Y.Z` or `X.Y.Z-channel.N`, numeric fields without leading zeros (SemVer
2.0.0, which the library enforces); everything else is a `ValueError` (`none`). -/
def parseSemver (s : String) : Option VersionInfo :=
  match matchBase s.data with
  | some (a, b, c, rest) =>
    match strictNum? a, strictNum? b, strictNum? c with
    | some M, some m, some p =>
      (match parseTail rest with
       | some pre => some ⟨M, m, p, pre⟩
       | none => none)
    | _, _, _ => none
  | none => none

/-- The characters of `"{major}.{minor}.{patch}"`. -/
def renderBaseChars (M m p : Nat) : List Char :=
  natChars M ++ '.' :: (natChars m ++ '.' :: natChars p)

/-- The string `"{M}.{m}.{p}"`. -/
def mkProd (M m p : Nat) : String := String.mk (renderBaseChars M m p)

/-- The string `"{M}.{m}.{p}-{ch}.{N}"`. -/
def mkPre (M m p : Nat) (ch : String) (N : Nat) : String :=
  String.mk (renderBaseChars M m p ++ '-' :: (ch.data ++ '.' :: natChars N))

/-- The string `f"{t.major}.{t.minor}.{t.patch}"` on a parsed `VersionInfo`. -/
def renderBase (v : VersionInfo) : String := mkProd v.major v.minor v.patch

/-- Rendering `str(v)` of a `semver.VersionInfo`. -/
def renderVersion (v : VersionInfo) : String :=
  match v.prerelease with
  | none => renderBase v
  | some (ch, n) => mkPre v.major v.minor v.patch ch n

/-- Embedding of `VersionInfo.bump_major`: `(M+1, 0, 0)`, prerelease dropped. -/
def bumpMajor (v : VersionInfo) : VersionInfo := ⟨v.major + 1, 0, 0, none⟩

/-- Embedding of `VersionInfo.bump_minor`: `(M, m+1, 0)`, prerelease dropped. -/
def bumpMinor (v : VersionInfo) : VersionInfo := ⟨v.major, v.minor + 1, 0, none⟩

/-- Embedding of `VersionInfo.bump_patch`: `(M, m, p+1)`, prerelease dropped. -/
def bumpPatch (v : VersionInfo) : VersionInfo := ⟨v.major, v.minor, v.patch + 1, none⟩

/-- Embedding of `VersionInfo.bump_prerelease()`: increment the trailing number of the
prerelease string (`_increment_string`); on a prerelease-free version the
library seeds `rc.0` and increments it to `rc.1`. -/
def bumpPrerelease (v : VersionInfo) : VersionInfo :=
  match v.prerelease with
  | some (ch, n) => ⟨v.major, v.minor, v.patch, some (ch, n + 1)⟩
  | none => ⟨v.major, v.minor, v.patch, some ("rc", 1)⟩

/-! ## The SemVer total order used by `sorted(..., key=semver.VersionInfo.parse)` -/

/-- Python `cmp` on two naturals. -/
def cmpNat (a b : Nat) : Ordering :=
  if a = b then .eq else if a < b then .lt else .gt

/-- Lexicographic (code-point) strict order on character lists: Python `<`
on strings. -/
def listLtChars : List Char → List Char → Bool
  | _, [] => false
  | [], _ :: _ => true
  | a :: as, b :: bs =>
    if a.toNat < b.toNat then true
    else if b.toNat < a.toNat then false
    else listLtChars as bs

/-- Python `cmp` on two strings (lexicographic by code point). -/
def cmpStr (a b : String) : Ordering :=
  if a = b then .eq else if listLtChars a.data b.data then .lt else .gt

/-- The `semver` prerelease comparison for the shapes occurring here: absence of a
prerelease compares above presence; `channel.N` pairs compare by channel string
(non-numeric identifiers, Python string `cmp`) then numeric ordinal. -/
def cmpPre : Option (String × Nat) → Option (String × Nat) → Ordering
  | none, none => .eq
  | none, some _ => .gt
  | some _, none => .lt
  | some (c1, n1), some (c2, n2) => (cmpStr c1 c2).then (cmpNat n1 n2)

/-- The `semver.VersionInfo` comparison: `(major, minor, patch)` lexicographically,
then the prerelease rule above. -/
def semverCmp (a b : VersionInfo) : Ordering :=
  (cmpNat a.major b.major).then
    ((cmpNat a.minor b.minor).then
      ((cmpNat a.patch b.patch).then (cmpPre a.prerelease b.prerelease)))

/-- Relation `a ≤ b` in the SemVer total order. -/
def semverLe (a b : VersionInfo) : Bool :=
  match semverCmp a b with
  | .gt => false
  | _ => true

/-! ## The repository backend and the manager's operations -/

/-- A repository is its list of tag names. -/
abbrev Repo := List String

/-- Embedding of `repo.create_tag(name)`: append the new tag name.  The backend's
duplicate-name rejection is out of scope (spec section 7); no claim exercises it. -/
def create_tag (t : String) (repo : Repo) : Repo := repo ++ [t]

/-- The error kinds surfacing from the manager: Python `ValueError` (format
errors, raised explicitly and by `semver` parsing), `InvalidTagCreation`
with its message, and the `UnboundLocalError` crash in `increment_rc_patch`. -/
inductive VcmError where
  | valueError
  | invalidTagCreation (msg : String)
  | unboundLocal
  deriving Repr, DecidableEq

/-- Embedding of `find_tag`: `any(re.search("^" + tag + "$", t.name.strip()) for t in tags)`.
The query is interpolated unescaped, so `.` matches any character. -/
def find_tag (tag : String) (repo : Repo) : Bool :=
  repo.any fun t => dotMatchChars tag.data t.data

/-- The key computation of `sorted`: parse every candidate, failing (Python
`ValueError`) as soon as any candidate does not parse. -/
def parseAll : List String → Option (List (String × VersionInfo))
  | [] => some []
  | t :: ts =>
    match parseSemver t, parseAll ts with
    | some v, some r => some ((t, v) :: r)
    | _, _ => none

/-- Embedding of `sorted(tags, key=..., reverse=True)[0]`: the element with the greatest key;
Python's sort is stable, so among equal keys the earliest element wins. -/
def pickMax : List (String × VersionInfo) → Option (String × VersionInfo)
  | [] => none
  | x :: xs => some (xs.foldl (fun best y => if semverCmp best.2 y.2 = .lt then y else best) x)

/-- Embedding of `find_tag_with_pattern`, with the pattern already instantiated to a matcher:
filter the tags, parse all matches (ValueError if any match is unparseable),
return the highest or `None`. -/
def find_tag_with_pattern (pat : String → Bool) (repo : Repo) :
    Except VcmError (Option String) :=
  match parseAll (repo.filter pat) with
  | none => .error .valueError
  | some tvs => .ok ((pickMax tvs).map Prod.fst)

/-- Embedding of `get_current_tag(prerelease_tag, production)`. -/
def get_current_tag (chan : String) (production : Bool) (repo : Repo) :
    Except VcmError (Option String) :=
  if production then find_tag_with_pattern matchesProd repo
  else find_tag_with_pattern (matchesChan chan) repo

/-- Embedding of `get_init_rc_tag`: validate against the prerelease grammar, parse (which can
itself raise `ValueError`, e.g. on leading zeros), keep the base, append `-rc.1`. -/
def get_init_rc_tag (tag : String) : Except VcmError String :=
  if matchesPre tag = false then .error .valueError
  else
    match parseSemver tag with
    | none => .error .valueError
    | some v => .ok (renderBase v ++ "-rc.1")

/-- Embedding of `increment_prerelease_tag(tag, prerelease_tag, major_bump)`. -/
def increment_prerelease_tag (tag? : Option String) (chan : String) (majorBump : Bool)
    (repo : Repo) : Except VcmError String × Repo :=
  match tag? with
  | some tag =>
    if matchesPre tag = false then (.error .valueError, repo)
    else
      match get_init_rc_tag tag with
      | .error e => (.error e, repo)
      | .ok rcName =>
        if find_tag rcName repo then
          match parseSemver tag with
          | none => (.error .valueError, repo)
          | some v =>
            let t := if majorBump then renderVersion (bumpMajor v) ++ "-" ++ chan ++ ".1"
                     else renderVersion (bumpMinor v) ++ "-" ++ chan ++ ".1"
            (.ok t, create_tag t repo)
        else
          match parseSemver tag with
          | none => (.error .valueError, repo)
          | some v =>
            let t := renderVersion (bumpPrerelease v)
            (.ok t, create_tag t repo)
  | none =>
    let t := "0.1.0-" ++ chan ++ ".1"
    (.ok t, create_tag t repo)

/-- Embedding of `init_new_rc(prerelease_tag)`. -/
def init_new_rc (chan : String) (repo : Repo) : Except VcmError (Option String) × Repo :=
  match get_current_tag chan false repo with
  | .error e => (.error e, repo)
  | .ok none => (.ok none, repo)
  | .ok (some t) =>
    match parseSemver t with
    | none => (.error .valueError, repo)
    | some v =>
      let rcTag := renderBase v ++ "-rc.1"
      (.ok (some rcTag), create_tag rcTag repo)

/-- Embedding of `init_new_patch()`. -/
def init_new_patch (repo : Repo) : Except VcmError (Option String) × Repo :=
  match get_current_tag "dev" true repo with
  | .error e => (.error e, repo)
  | .ok none => (.ok none, repo)
  | .ok (some t) =>
    let pTag := t ++ "-patch.1"
    (.ok (some pTag), create_tag pTag repo)

/-- Embedding of `get_current_rc_patch(tag, prerelease_tag)`. -/
def get_current_rc_patch (tag chan : String) (repo : Repo) :
    Except VcmError (Option String) :=
  if matchesProd tag = false then .error .valueError
  else find_tag_with_pattern (matchesRcPatch tag chan) repo

/-- Message of the illegal transition blocking an RC after production. -/
def rcBlockMsg : String :=
  "Production version available. Cannot create Release Candidate version!"

/-- Message of the illegal transition blocking a patch without production. -/
def patchNeedsProdMsg : String :=
  "Production version not available. Cannot create Patch version!"

/-- Message of the illegal transition blocking a patch family that has shipped. -/
def patchFrozenMsg : String :=
  "Cannot increment Patch pre-release version. Patch found in Production."

/-- The shared `if current_rc: ...` tail of `increment_rc_patch`. -/
def finishIncrement (cur : Option String) (repo : Repo) :
    Except VcmError (Option String) × Repo :=
  match cur with
  | some c =>
    match parseSemver c with
    | none => (.error .valueError, repo)
    | some v =>
      let t := renderVersion (bumpPrerelease v)
      (.ok (some t), create_tag t repo)
  | none => (.ok none, repo)

/-- Embedding of `increment_rc_patch(tag, prerelease_tag)`.  For a channel other than `"rc"`
and `"patch"` the Python code falls through its `elif` chain with `current_rc`
never assigned and crashes at `if current_rc:` with `UnboundLocalError`,
modelled by `VcmError.unboundLocal`. -/
def increment_rc_patch (tag chan : String) (repo : Repo) :
    Except VcmError (Option String) × Repo :=
  if matchesProd tag = false then (.error .valueError, repo)
  else if chan = "rc" ∧ find_tag tag repo = true then
    (.error (.invalidTagCreation rcBlockMsg), repo)
  else if chan = "patch" ∧ find_tag tag repo = false then
    (.error (.invalidTagCreation patchNeedsProdMsg), repo)
  else if chan = "rc" then
    match get_current_rc_patch tag "rc" repo with
    | .error e => (.error e, repo)
    | .ok cur => finishIncrement cur repo
  else if chan = "patch" then
    match parseSemver tag with
    | none => (.error .valueError, repo)
    | some v =>
      if find_tag (renderVersion (bumpPatch v)) repo then
        (.error (.invalidTagCreation patchFrozenMsg), repo)
      else
        match get_current_rc_patch tag "patch" repo with
        | .error e => (.error e, repo)
        | .ok cur => finishIncrement cur repo
  else (.error .unboundLocal, repo)

/-- Embedding of `create_prod_tag(tag)`. -/
def create_prod_tag (tag : String) (repo : Repo) : Except VcmError String × Repo :=
  match matchPromote tag with
  | none => (.error .valueError, repo)
  | some isPatch =>
    match parseSemver tag with
    | none => (.error .valueError, repo)
    | some v =>
      let t := if isPatch then renderVersion (bumpPatch v) else renderBase v
      (.ok t, create_tag t repo)

/-! ## Helper lemmas: character lists, decimal rendering, rendered-string facts -/

theorem takeWhile_all {p : Char → Bool} {xs : List Char} (h : ∀ c ∈ xs, p c = true) :
    xs.takeWhile p = xs := by
  induction xs with
  | nil => rfl
  | cons x xs ih =>
    simp only [List.takeWhile_cons, h x (List.mem_cons_self x xs)]
    simp [ih fun c hc => h c (List.mem_cons_of_mem x hc)]

theorem dropWhile_all {p : Char → Bool} {xs : List Char} (h : ∀ c ∈ xs, p c = true) :
    xs.dropWhile p = [] := by
  induction xs with
  | nil => rfl
  | cons x xs ih =>
    simp only [List.dropWhile_cons, h x (List.mem_cons_self x xs)]
    exact ih fun c hc => h c (List.mem_cons_of_mem x hc)

theorem takeWhile_append_cons {p : Char → Bool} {xs : List Char}
    (h : ∀ c ∈ xs, p c = true) {y : Char} (hy : p y = false) (ys : List Char) :
    ((xs ++ y :: ys).takeWhile p) = xs := by
  induction xs with
  | nil => simp [List.takeWhile_cons, hy]
  | cons x xs ih =>
    simp only [List.cons_append, List.takeWhile_cons, h x (List.mem_cons_self x xs)]
    simp [ih fun c hc => h c (List.mem_cons_of_mem x hc)]

theorem dropWhile_append_cons {p : Char → Bool} {xs : List Char}
    (h : ∀ c ∈ xs, p c = true) {y : Char} (hy : p y = false) (ys : List Char) :
    ((xs ++ y :: ys).dropWhile p) = y :: ys := by
  induction xs with
  | nil => simp [List.dropWhile_cons, hy]
  | cons x xs ih =>
    simp only [List.cons_append, List.dropWhile_cons, h x (List.mem_cons_self x xs)]
    exact ih fun c hc => h c (List.mem_cons_of_mem x hc)

theorem stripLit_append : ∀ (xs r : List Char), stripLit xs (xs ++ r) = some r
  | [], r => rfl
  | x :: xs, r => by simp [stripLit, stripLit_append xs r]

theorem dotMatch_refl : ∀ s : List Char, dotMatchChars s s = true
  | [] => rfl
  | c :: cs => by simp [dotMatchChars, dotMatch_refl cs]

theorem find_tag_of_mem {t : String} {repo : Repo} (h : t ∈ repo) :
    find_tag t repo = true := by
  simp only [find_tag, List.any_eq_true]
  exact ⟨t, h, dotMatch_refl t.data⟩

theorem digitChar_spec {d : Nat} (h : d < 10) :
    (Nat.digitChar d).isDigit = true ∧ (Nat.digitChar d).toNat = 48 + d ∧
      (d ≠ 0 → Nat.digitChar d ≠ '0') := by
  interval_cases d <;> exact ⟨by decide, by decide, by decide⟩

theorem natCharsAux_zero : ∀ f, natCharsAux f 0 = []
  | 0 => rfl
  | _ + 1 => rfl

theorem natOfDigits_append (xs : List Char) (c : Char) :
    natOfDigits (xs ++ [c]) = natOfDigits xs * 10 + (c.toNat - 48) := by
  simp [natOfDigits, List.foldl_append]

theorem natCharsAux_spec : ∀ fuel n, 0 < n → n ≤ fuel →
    (∀ c ∈ natCharsAux fuel n, c.isDigit = true) ∧ natCharsAux fuel n ≠ [] ∧
      (natCharsAux fuel n).head? ≠ some '0' ∧ natOfDigits (natCharsAux fuel n) = n := by
  intro fuel
  induction fuel with
  | zero => intro n h1 h2; omega
  | succ f ih =>
    intro n h1 _
    obtain ⟨n, rfl⟩ : ∃ k, n = k + 1 := ⟨n - 1, by omega⟩
    have hmod : (n + 1) % 10 < 10 := Nat.mod_lt _ (by omega)
    have hdm := Nat.div_add_mod (n + 1) 10
    obtain ⟨hdig, htn, hnz⟩ := digitChar_spec hmod
    rw [show natCharsAux (f + 1) (n + 1) =
        natCharsAux f ((n + 1) / 10) ++ [Nat.digitChar ((n + 1) % 10)] from rfl]
    by_cases hq : (n + 1) / 10 = 0
    · rw [hq, natCharsAux_zero, List.nil_append]
      refine ⟨?_, by simp, ?_, ?_⟩
      · intro c hc
        simp only [List.mem_singleton] at hc
        subst hc; exact hdig
      · have h0 : (n + 1) % 10 ≠ 0 := by omega
        simp only [List.head?_cons, ne_eq, Option.some.injEq]
        exact hnz h0
      · rw [show natOfDigits [Nat.digitChar ((n + 1) % 10)] =
            (Nat.digitChar ((n + 1) % 10)).toNat - 48 from by simp [natOfDigits]]
        omega
    · have hpos : 0 < (n + 1) / 10 := Nat.pos_of_ne_zero hq
      have hle : (n + 1) / 10 ≤ f := by
        have := Nat.div_lt_self (show 0 < n + 1 by omega) (show 1 < 10 by omega)
        omega
      obtain ⟨ihd, ihne, ihhd, ihval⟩ := ih _ hpos hle
      refine ⟨?_, ?_, ?_, ?_⟩
      · intro c hc
        rcases List.mem_append.1 hc with hcl | hcl
        · exact ihd c hcl
        · simp only [List.mem_singleton] at hcl
          subst hcl; exact hdig
      · simp [ihne]
      · obtain ⟨a, as, he⟩ : ∃ a as, natCharsAux f ((n + 1) / 10) = a :: as := by
          rcases hx : natCharsAux f ((n + 1) / 10) with _ | ⟨a, as⟩
          · exact absurd hx ihne
          · exact ⟨a, as, rfl⟩
        rw [he]
        rw [he] at ihhd
        simpa using ihhd
      · rw [natOfDigits_append, ihval, htn]
        omega

theorem natChars_spec (n : Nat) :
    (∀ c ∈ natChars n, c.isDigit = true) ∧ natChars n ≠ [] ∧
      strictNum? (natChars n) = some n := by
  by_cases h : n = 0
  · subst h
    refine ⟨?_, by decide, by decide⟩
    intro c hc
    rw [show natChars 0 = ['0'] from rfl] at hc
    simp only [List.mem_singleton] at hc
    subst hc; decide
  · obtain ⟨hd, hne, hhd, hval⟩ := natCharsAux_spec n n (Nat.pos_of_ne_zero h) le_rfl
    have he : natChars n = natCharsAux n n := by simp [natChars, h]
    refine ⟨by rw [he]; exact hd, by rw [he]; exact hne, ?_⟩
    rw [he]
    unfold strictNum?
    rw [if_neg (by simp [List.isEmpty_iff, hne]), if_neg (fun hc => hhd hc.1), hval]

theorem eatNum_digits_append (d : List Char) (hd : ∀ c ∈ d, c.isDigit = true)
    (hne : d ≠ []) (r : List Char) (hr : headNotDigit r = true) :
    eatNum (d ++ r) = some (d, r) := by
  cases r with
  | nil =>
    rw [List.append_nil]
    simp only [eatNum, takeWhile_all hd, dropWhile_all hd]
    rw [if_neg (by simp [List.isEmpty_iff, hne])]
  | cons y ys =>
    have hy : y.isDigit = false := by
      simpa [headNotDigit] using hr
    simp only [eatNum, takeWhile_append_cons hd hy, dropWhile_append_cons hd hy]
    rw [if_neg (by simp [List.isEmpty_iff, hne])]

theorem matchBase_render (M m p : Nat) (rest : List Char) (h : headNotDigit rest = true) :
    matchBase (renderBaseChars M m p ++ rest) =
      some (natChars M, natChars m, natChars p, rest) := by
  obtain ⟨hdM, hneM, _⟩ := natChars_spec M
  obtain ⟨hdm, hnem, _⟩ := natChars_spec m
  obtain ⟨hdp, hnep, _⟩ := natChars_spec p
  have e1 : renderBaseChars M m p ++ rest =
      natChars M ++ '.' :: (natChars m ++ '.' :: (natChars p ++ rest)) := by
    simp [renderBaseChars]
  rw [e1]
  simp only [matchBase,
    eatNum_digits_append (natChars M) hdM hneM
      ('.' :: (natChars m ++ '.' :: (natChars p ++ rest))) rfl,
    eatNum_digits_append (natChars m) hdm hnem ('.' :: (natChars p ++ rest)) rfl,
    eatNum_digits_append (natChars p) hdp hnep rest h]

theorem matchBase_render_nil (M m p : Nat) :
    matchBase (renderBaseChars M m p) = some (natChars M, natChars m, natChars p, []) := by
  have := matchBase_render M m p [] rfl
  rwa [List.append_nil] at this

theorem strMkData (s : String) : String.mk s.data = s := by cases s; rfl

theorem strExt {a b : String} (h : a.data = b.data) : a = b := by
  cases a; cases b; exact congrArg String.mk h

theorem dataAppend (a b : String) : (a ++ b).data = a.data ++ b.data := by
  cases a; cases b; rfl

theorem chanOK_unpack {ch : String} (hch : chanOK ch = true) :
    (∀ c ∈ ch.data, c.isLower = true) ∧ ch.data ≠ [] := by
  unfold chanOK at hch
  rw [Bool.and_eq_true] at hch
  obtain ⟨hne', hall⟩ := hch
  refine ⟨fun c hc => List.all_eq_true.1 hall c hc, ?_⟩
  intro hcon
  rw [hcon] at hne'
  simp at hne'

theorem parse_mkProd (M m p : Nat) : parseSemver (mkProd M m p) = some ⟨M, m, p, none⟩ := by
  obtain ⟨_, _, hsM⟩ := natChars_spec M
  obtain ⟨_, _, hsm⟩ := natChars_spec m
  obtain ⟨_, _, hsp⟩ := natChars_spec p
  simp only [parseSemver, show (mkProd M m p).data = renderBaseChars M m p from rfl,
    matchBase_render_nil, hsM, hsm, hsp, parseTail]

theorem parse_mkPre (M m p N : Nat) (ch : String) (hch : chanOK ch = true) :
    parseSemver (mkPre M m p ch N) = some ⟨M, m, p, some (ch, N)⟩ := by
  obtain ⟨hlow, hne⟩ := chanOK_unpack hch
  obtain ⟨_, _, hsM⟩ := natChars_spec M
  obtain ⟨_, _, hsm⟩ := natChars_spec m
  obtain ⟨_, _, hsp⟩ := natChars_spec p
  obtain ⟨hdN, hneN, hsN⟩ := natChars_spec N
  have hmb := matchBase_render M m p ('-' :: (ch.data ++ '.' :: natChars N)) rfl
  have htw : (ch.data ++ '.' :: natChars N).takeWhile Char.isLower = ch.data :=
    takeWhile_append_cons hlow (by decide) _
  have hdw : (ch.data ++ '.' :: natChars N).dropWhile Char.isLower = '.' :: natChars N :=
    dropWhile_append_cons hlow (by decide) _
  have hen : eatNum (natChars N) = some (natChars N, []) := by
    have := eatNum_digits_append (natChars N) hdN hneN [] rfl
    rwa [List.append_nil] at this
  have hie : ch.data.isEmpty = false := by simp [List.isEmpty_iff, hne]
  simp only [parseSemver,
    show (mkPre M m p ch N).data = renderBaseChars M m p ++ '-' :: (ch.data ++ '.' :: natChars N)
      from rfl,
    hmb, htw, hdw, hen, hsM, hsm, hsp, hsN, hie, Bool.false_eq_true, if_false, strMkData,
    parseTail, parsePreTail]

theorem matchesProd_mkProd (M m p : Nat) : matchesProd (mkProd M m p) = true := by
  simp only [matchesProd, show (mkProd M m p).data = renderBaseChars M m p from rfl,
    matchBase_render_nil]

theorem endsNumOnly_natChars (N : Nat) : endsNumOnly (natChars N) = true := by
  obtain ⟨hdN, hneN, _⟩ := natChars_spec N
  have hen : eatNum (natChars N) = some (natChars N, []) := by
    have := eatNum_digits_append (natChars N) hdN hneN [] rfl
    rwa [List.append_nil] at this
  simp only [endsNumOnly, hen]

theorem matchesPre_mkPre (M m p N : Nat) (ch : String) (hch : chanOK ch = true) :
    matchesPre (mkPre M m p ch N) = true := by
  obtain ⟨hlow, hne⟩ := chanOK_unpack hch
  have hmb := matchBase_render M m p ('-' :: (ch.data ++ '.' :: natChars N)) rfl
  have htw : (ch.data ++ '.' :: natChars N).takeWhile Char.isLower = ch.data :=
    takeWhile_append_cons hlow (by decide) _
  have hdw : (ch.data ++ '.' :: natChars N).dropWhile Char.isLower = '.' :: natChars N :=
    dropWhile_append_cons hlow (by decide) _
  have hie : ch.data.isEmpty = false := by simp [List.isEmpty_iff, hne]
  simp only [matchesPre,
    show (mkPre M m p ch N).data = renderBaseChars M m p ++ '-' :: (ch.data ++ '.' :: natChars N)
      from rfl,
    hmb, htw, hdw, hie, endsNumOnly_natChars, Bool.not_false, Bool.true_and]

theorem matchPromote_rc (M m p N : Nat) :
    matchPromote (mkPre M m p "rc" N) = some false := by
  have hmb := matchBase_render M m p ('-' :: (['r', 'c'] ++ '.' :: natChars N)) rfl
  have hsl : stripLit ['r', 'c'] (['r', 'c'] ++ '.' :: natChars N) =
      some ('.' :: natChars N) := stripLit_append _ _
  simp only [matchPromote,
    show (mkPre M m p "rc" N).data =
      renderBaseChars M m p ++ '-' :: (['r', 'c'] ++ '.' :: natChars N) from rfl,
    hmb, hsl, endsNumOnly_natChars, if_true]

theorem matchPromote_patch (M m p N : Nat) :
    matchPromote (mkPre M m p "patch" N) = some true := by
  have hmb := matchBase_render M m p
    ('-' :: (['p', 'a', 't', 'c', 'h'] ++ '.' :: natChars N)) rfl
  have hsl : stripLit ['p', 'a', 't', 'c', 'h']
      (['p', 'a', 't', 'c', 'h'] ++ '.' :: natChars N) = some ('.' :: natChars N) :=
    stripLit_append _ _
  have hrc : stripLit ['r', 'c'] (['p', 'a', 't', 'c', 'h'] ++ '.' :: natChars N) = none := rfl
  simp only [matchPromote,
    show (mkPre M m p "patch" N).data =
      renderBaseChars M m p ++ '-' :: (['p', 'a', 't', 'c', 'h'] ++ '.' :: natChars N) from rfl,
    hmb, hrc, hsl, endsNumOnly_natChars, if_true]

theorem rcOne_eq (v : VersionInfo) :
    renderBase v ++ "-rc.1" = mkPre v.major v.minor v.patch "rc" 1 := by
  apply strExt
  rw [dataAppend]
  rfl

theorem seed_eq (M m p : Nat) (chan : String) :
    mkProd M m p ++ "-" ++ chan ++ ".1" = mkPre M m p chan 1 := by
  apply strExt
  rw [dataAppend, dataAppend, dataAppend]
  show renderBaseChars M m p ++ ['-'] ++ chan.data ++ ['.', '1'] =
    renderBaseChars M m p ++ '-' :: (chan.data ++ '.' :: ['1'])
  simp

/-! ## Helper lemmas: the SemVer total order -/

theorem then_eq_eq {o q : Ordering} : o.then q = .eq ↔ o = .eq ∧ q = .eq := by
  cases o <;> simp [Ordering.then]

theorem then_eq_lt {o q : Ordering} : o.then q = .lt ↔ o = .lt ∨ o = .eq ∧ q = .lt := by
  cases o <;> simp [Ordering.then]

theorem then_eq_gt {o q : Ordering} : o.then q = .gt ↔ o = .gt ∨ o = .eq ∧ q = .gt := by
  cases o <;> simp [Ordering.then]

theorem cmpNat_eq {a b : Nat} : cmpNat a b = .eq ↔ a = b := by
  unfold cmpNat
  split_ifs with h1 h2 <;> simpa using h1

theorem cmpNat_lt {a b : Nat} : cmpNat a b = .lt ↔ a < b := by
  unfold cmpNat
  split_ifs with h1 h2
  · simp; omega
  · simpa using h2
  · simpa using h2

theorem cmpNat_gt {a b : Nat} : cmpNat a b = .gt ↔ b < a := by
  unfold cmpNat
  split_ifs with h1 h2 <;> simp <;> omega

theorem charToNat_inj {a b : Char} (h : a.toNat = b.toNat) : a = b := by
  have hv : a.val = b.val := UInt32.toNat.inj h
  exact Char.ext hv

theorem listLt_irrefl : ∀ l : List Char, listLtChars l l = false
  | [] => rfl
  | a :: as => by simp [listLtChars, listLt_irrefl as]

theorem listLt_asymm : ∀ a b : List Char, listLtChars a b = true → listLtChars b a = false
  | _, [], h => by simp [listLtChars] at h
  | [], _ :: _, _ => rfl
  | a :: as, b :: bs, h => by
    simp only [listLtChars] at h ⊢
    by_cases h1 : a.toNat < b.toNat
    · rw [if_neg (by omega : ¬ b.toNat < a.toNat), if_pos h1]
    · rw [if_neg h1] at h
      by_cases h2 : b.toNat < a.toNat
      · rw [if_pos h2] at h
        exact absurd h (by simp)
      · rw [if_neg h2] at h
        rw [if_neg h2, if_neg h1]
        exact listLt_asymm as bs h

theorem listLt_total : ∀ a b : List Char, a ≠ b →
    listLtChars a b = true ∨ listLtChars b a = true
  | [], [], h => absurd rfl h
  | [], _ :: _, _ => .inl rfl
  | _ :: _, [], _ => .inr rfl
  | a :: as, b :: bs, h => by
    by_cases hab : a.toNat < b.toNat
    · exact .inl (by simp [listLtChars, hab])
    · by_cases hba : b.toNat < a.toNat
      · exact .inr (by simp [listLtChars, hba, hab])
      · have hcc : a = b := charToNat_inj (by omega)
        subst hcc
        have hne : as ≠ bs := fun hcon => h (by rw [hcon])
        rcases listLt_total as bs hne with h1 | h1
        · exact .inl (by simp [listLtChars, hab, h1])
        · exact .inr (by simp [listLtChars, hab, h1])

theorem listLt_trans : ∀ a b c : List Char, listLtChars a b = true →
    listLtChars b c = true → listLtChars a c = true
  | _, _, [], _, h2 => by simp [listLtChars] at h2
  | _, [], _ :: _, h1, _ => by simp [listLtChars] at h1
  | [], _ :: _, _ :: _, _, _ => rfl
  | a :: as, b :: bs, c :: cs, h1, h2 => by
    simp only [listLtChars] at h1 h2 ⊢
    by_cases g1 : a.toNat < b.toNat <;> by_cases g2 : b.toNat < c.toNat
    · rw [if_pos (by omega : a.toNat < c.toNat)]
    · rw [if_neg g2] at h2
      by_cases g4 : c.toNat < b.toNat
      · rw [if_pos g4] at h2
        exact absurd h2 (by simp)
      · rw [if_neg g4] at h2
        rw [if_pos (by omega : a.toNat < c.toNat)]
    · rw [if_neg g1] at h1
      by_cases g3 : b.toNat < a.toNat
      · rw [if_pos g3] at h1
        exact absurd h1 (by simp)
      · rw [if_neg g3] at h1
        rw [if_pos (by omega : a.toNat < c.toNat)]
    · rw [if_neg g1] at h1
      rw [if_neg g2] at h2
      by_cases g3 : b.toNat < a.toNat
      · rw [if_pos g3] at h1
        exact absurd h1 (by simp)
      · by_cases g4 : c.toNat < b.toNat
        · rw [if_pos g4] at h2
          exact absurd h2 (by simp)
        · rw [if_neg g3] at h1
          rw [if_neg g4] at h2
          rw [if_neg (by omega : ¬ a.toNat < c.toNat),
            if_neg (by omega : ¬ c.toNat < a.toNat)]
          exact listLt_trans as bs cs h1 h2

theorem cmpStr_eq {a b : String} : cmpStr a b = .eq ↔ a = b := by
  unfold cmpStr
  split_ifs with h1 h2 <;> simpa using h1

theorem cmpStr_gt_iff {a b : String} : cmpStr a b = .gt ↔ cmpStr b a = .lt := by
  by_cases h1 : a = b
  · subst h1
    simp [cmpStr]
  · have h1' : ¬ b = a := fun hcon => h1 hcon.symm
    by_cases h2 : listLtChars a.data b.data = true
    · have h4 : listLtChars b.data a.data = false := listLt_asymm _ _ h2
      simp [cmpStr, h1, h1', h2, h4]
    · have h3 : listLtChars b.data a.data = true := by
        rcases listLt_total a.data b.data (fun hcon => h1 (strExt hcon)) with h | h
        · exact absurd h h2
        · exact h
      simp [cmpStr, h1, h1', h2, h3]

theorem cmpStr_lt_unpack {a b : String} (h : cmpStr a b = .lt) :
    a ≠ b ∧ listLtChars a.data b.data = true := by
  unfold cmpStr at h
  by_cases g : a = b
  · rw [if_pos g] at h
    exact absurd h (by simp)
  · rw [if_neg g] at h
    by_cases g2 : listLtChars a.data b.data = true
    · exact ⟨g, g2⟩
    · rw [if_neg g2] at h
      exact absurd h (by simp)

theorem cmpStr_lt_trans {a b c : String} (h1 : cmpStr a b = .lt) (h2 : cmpStr b c = .lt) :
    cmpStr a c = .lt := by
  obtain ⟨hne1, hl1⟩ := cmpStr_lt_unpack h1
  obtain ⟨hne2, hl2⟩ := cmpStr_lt_unpack h2
  have hac : listLtChars a.data c.data = true := listLt_trans _ _ _ hl1 hl2
  have hne : a ≠ c := by
    intro hcon
    subst hcon
    have := listLt_asymm _ _ hl1
    rw [this] at hl2
    exact absurd hl2 (by simp)
  unfold cmpStr
  rw [if_neg hne, if_pos hac]

theorem cmpPre_eq : ∀ {x y : Option (String × Nat)}, cmpPre x y = .eq ↔ x = y
  | none, none => by simp [cmpPre]
  | none, some q => by simp [cmpPre]
  | some q, none => by simp [cmpPre]
  | some (c1, n1), some (c2, n2) => by
    simp [cmpPre, then_eq_eq, cmpStr_eq, cmpNat_eq]

theorem cmpPre_gt_iff : ∀ {x y : Option (String × Nat)}, cmpPre x y = .gt ↔ cmpPre y x = .lt
  | none, none => by simp [cmpPre]
  | none, some q => by simp [cmpPre]
  | some q, none => by simp [cmpPre]
  | some (c1, n1), some (c2, n2) => by
    simp only [cmpPre, then_eq_gt, then_eq_lt, cmpStr_gt_iff, cmpStr_eq, cmpNat_gt, cmpNat_lt]
    constructor
    · rintro (h | ⟨e, h⟩)
      · exact .inl h
      · exact .inr ⟨e.symm, h⟩
    · rintro (h | ⟨e, h⟩)
      · exact .inl h
      · exact .inr ⟨e.symm, h⟩

theorem cmpPre_lt_trans : ∀ {x y z : Option (String × Nat)}, cmpPre x y = .lt →
    cmpPre y z = .lt → cmpPre x z = .lt
  | none, none, _, h1, _ => by simp [cmpPre] at h1
  | none, some _, _, h1, _ => by simp [cmpPre] at h1
  | some _, none, none, _, h2 => by simp [cmpPre] at h2
  | some _, none, some _, _, h2 => by simp [cmpPre] at h2
  | some _, some _, none, _, _ => rfl
  | some (c1, n1), some (c2, n2), some (c3, n3), h1, h2 => by
    simp only [cmpPre, then_eq_lt, cmpStr_eq, cmpNat_lt] at h1 h2 ⊢
    rcases h1 with h1 | ⟨e1, h1⟩ <;> rcases h2 with h2 | ⟨e2, h2⟩
    · exact .inl (cmpStr_lt_trans h1 h2)
    · exact .inl (e2 ▸ h1)
    · exact .inl (e1 ▸ h2)
    · exact .inr ⟨e1.trans e2, by omega⟩

theorem semverCmp_lt_iff {a b : VersionInfo} : semverCmp a b = .lt ↔
    a.major < b.major ∨ a.major = b.major ∧ (a.minor < b.minor ∨ a.minor = b.minor ∧
      (a.patch < b.patch ∨ a.patch = b.patch ∧ cmpPre a.prerelease b.prerelease = .lt)) := by
  simp [semverCmp, then_eq_lt, cmpNat_lt, cmpNat_eq, and_assoc]

theorem semverCmp_gt_nf {a b : VersionInfo} : semverCmp a b = .gt ↔
    b.major < a.major ∨ a.major = b.major ∧ (b.minor < a.minor ∨ a.minor = b.minor ∧
      (b.patch < a.patch ∨ a.patch = b.patch ∧ cmpPre a.prerelease b.prerelease = .gt)) := by
  simp [semverCmp, then_eq_gt, cmpNat_gt, cmpNat_eq, and_assoc]

theorem semverCmp_eq_iff {a b : VersionInfo} : semverCmp a b = .eq ↔ a = b := by
  simp only [semverCmp, then_eq_eq, cmpNat_eq, cmpPre_eq]
  constructor
  · rintro ⟨h1, h2, h3, h4⟩
    cases a; cases b; simp_all
  · rintro rfl; simp

theorem semverCmp_self (a : VersionInfo) : semverCmp a a = .eq := semverCmp_eq_iff.2 rfl

theorem semverCmp_gt_iff {a b : VersionInfo} : semverCmp a b = .gt ↔ semverCmp b a = .lt := by
  rw [semverCmp_gt_nf, semverCmp_lt_iff]
  constructor
  · rintro (h | ⟨e, h | ⟨f, h | ⟨g, h⟩⟩⟩)
    · exact .inl h
    · exact .inr ⟨e.symm, .inl h⟩
    · exact .inr ⟨e.symm, .inr ⟨f.symm, .inl h⟩⟩
    · exact .inr ⟨e.symm, .inr ⟨f.symm, .inr ⟨g.symm, cmpPre_gt_iff.1 h⟩⟩⟩
  · rintro (h | ⟨e, h | ⟨f, h | ⟨g, h⟩⟩⟩)
    · exact .inl h
    · exact .inr ⟨e.symm, .inl h⟩
    · exact .inr ⟨e.symm, .inr ⟨f.symm, .inl h⟩⟩
    · exact .inr ⟨e.symm, .inr ⟨f.symm, .inr ⟨g.symm, cmpPre_gt_iff.2 h⟩⟩⟩

theorem semverCmp_lt_trans {a b c : VersionInfo} (h1 : semverCmp a b = .lt)
    (h2 : semverCmp b c = .lt) : semverCmp a c = .lt := by
  rw [semverCmp_lt_iff] at h1 h2 ⊢
  rcases h1 with h1 | ⟨e1, h1⟩
  · rcases h2 with h2 | ⟨e2, h2⟩
    · exact .inl (by omega)
    · exact .inl (by omega)
  · rcases h2 with h2 | ⟨e2, h2⟩
    · exact .inl (by omega)
    · refine .inr ⟨by omega, ?_⟩
      rcases h1 with h1 | ⟨f1, h1⟩ <;> rcases h2 with h2 | ⟨f2, h2⟩
      · exact .inl (by omega)
      · exact .inl (by omega)
      · exact .inl (by omega)
      · refine .inr ⟨by omega, ?_⟩
        rcases h1 with h1 | ⟨g1, h1⟩ <;> rcases h2 with h2 | ⟨g2, h2⟩
        · exact .inl (by omega)
        · exact .inl (by omega)
        · exact .inl (by omega)
        · exact .inr ⟨by omega, cmpPre_lt_trans h1 h2⟩

theorem semverGe_trans {a b c : VersionInfo} (h1 : semverCmp a b ≠ .lt)
    (h2 : semverCmp b c ≠ .lt) : semverCmp a c ≠ .lt := by
  intro hac
  rcases ho : semverCmp a b with _ | _ | _
  · exact h1 ho
  · exact h2 (semverCmp_eq_iff.1 ho ▸ hac)
  · exact h2 (semverCmp_lt_trans (semverCmp_gt_iff.1 ho) hac)

/-! ## Helper lemmas: `parseAll` and `pickMax` -/

theorem foldl_pick_mem (xs : List (String × VersionInfo)) :
    ∀ x, xs.foldl (fun best y => if semverCmp best.2 y.2 = .lt then y else best) x ∈ x :: xs := by
  induction xs with
  | nil => intro x; simp
  | cons y ys ih =>
    intro x
    simp only [List.foldl_cons]
    by_cases hc : semverCmp x.2 y.2 = .lt
    · rw [if_pos hc]
      rcases List.mem_cons.1 (ih y) with h | h
      · simp [List.mem_cons, h]
      · exact List.mem_cons_of_mem x (List.mem_cons_of_mem y h)
    · rw [if_neg hc]
      rcases List.mem_cons.1 (ih x) with h | h
      · simp [List.mem_cons, h]
      · exact List.mem_cons_of_mem x (List.mem_cons_of_mem y h)

theorem foldl_pick_ge (xs : List (String × VersionInfo)) : ∀ x,
    semverCmp (xs.foldl (fun best y => if semverCmp best.2 y.2 = .lt then y else best) x).2
        x.2 ≠ .lt ∧
      ∀ a ∈ xs,
        semverCmp (xs.foldl (fun best y => if semverCmp best.2 y.2 = .lt then y else best) x).2
          a.2 ≠ .lt := by
  induction xs with
  | nil =>
    intro x
    exact ⟨by simp [semverCmp_self], fun a ha => absurd ha (List.not_mem_nil a)⟩
  | cons y ys ih =>
    intro x
    simp only [List.foldl_cons]
    by_cases hc : semverCmp x.2 y.2 = .lt
    · rw [if_pos hc]
      obtain ⟨h1, h2⟩ := ih y
      have hyx : semverCmp y.2 x.2 ≠ .lt := by
        have hg : semverCmp y.2 x.2 = .gt := semverCmp_gt_iff.2 hc
        simp [hg]
      refine ⟨semverGe_trans h1 hyx, ?_⟩
      intro a ha
      rcases List.mem_cons.1 ha with rfl | ha'
      · exact h1
      · exact h2 a ha'
    · rw [if_neg hc]
      obtain ⟨h1, h2⟩ := ih x
      refine ⟨h1, ?_⟩
      intro a ha
      rcases List.mem_cons.1 ha with rfl | ha'
      · exact semverGe_trans h1 hc
      · exact h2 a ha'

theorem pickMax_spec {tvs : List (String × VersionInfo)} {b : String × VersionInfo}
    (h : pickMax tvs = some b) : b ∈ tvs ∧ ∀ a ∈ tvs, semverCmp b.2 a.2 ≠ .lt := by
  cases tvs with
  | nil => simp [pickMax] at h
  | cons x xs =>
    simp only [pickMax, Option.some.injEq] at h
    subst h
    obtain ⟨h1, h2⟩ := foldl_pick_ge xs x
    refine ⟨foldl_pick_mem xs x, ?_⟩
    intro a ha
    rcases List.mem_cons.1 ha with rfl | ha'
    · exact h1
    · exact h2 a ha'

theorem pickMax_none {tvs : List (String × VersionInfo)} (h : pickMax tvs = none) :
    tvs = [] := by
  cases tvs with
  | nil => rfl
  | cons x xs => simp [pickMax] at h

theorem parseAll_spec : ∀ {l : List String} {tvs : List (String × VersionInfo)},
    parseAll l = some tvs → tvs.map Prod.fst = l ∧ ∀ q ∈ tvs, parseSemver q.1 = some q.2 := by
  intro l
  induction l with
  | nil =>
    intro tvs h
    simp only [parseAll, Option.some.injEq] at h
    subst h
    simp
  | cons t ts ih =>
    intro tvs h
    simp only [parseAll] at h
    rcases hp : parseSemver t with _ | v <;> rw [hp] at h
    · simp at h
    · rcases hr : parseAll ts with _ | r <;> rw [hr] at h
      · simp at h
      · simp only [Option.some.injEq] at h
        subst h
        obtain ⟨ih1, ih2⟩ := ih hr
        refine ⟨by simp [ih1], ?_⟩
        intro q hq
        rcases List.mem_cons.1 hq with rfl | hq'
        · exact hp
        · exact ih2 q hq'

theorem parseAll_total : ∀ {l : List String}, (∀ t ∈ l, (parseSemver t).isSome = true) →
    ∃ tvs, parseAll l = some tvs := by
  intro l
  induction l with
  | nil => intro _; exact ⟨[], rfl⟩
  | cons t ts ih =>
    intro h
    obtain ⟨v, hv⟩ := Option.isSome_iff_exists.1 (h t (List.mem_cons_self t ts))
    obtain ⟨r, hr⟩ := ih fun s hs => h s (List.mem_cons_of_mem t hs)
    exact ⟨(t, v) :: r, by simp [parseAll, hv, hr]⟩

/-! ## Helper lemmas: operation unfolding and order facts for the bump branches -/

theorem increment_eq_of_parse {tag : String} {v : VersionInfo} (hm : matchesPre tag = true)
    (hp : parseSemver tag = some v) (chan : String) (mb : Bool) (repo : Repo) :
    increment_prerelease_tag (some tag) chan mb repo =
      if find_tag (renderBase v ++ "-rc.1") repo then
        ((.ok (if mb then renderVersion (bumpMajor v) ++ "-" ++ chan ++ ".1"
              else renderVersion (bumpMinor v) ++ "-" ++ chan ++ ".1")),
          create_tag (if mb then renderVersion (bumpMajor v) ++ "-" ++ chan ++ ".1"
              else renderVersion (bumpMinor v) ++ "-" ++ chan ++ ".1") repo)
      else
        (.ok (renderVersion (bumpPrerelease v)),
          create_tag (renderVersion (bumpPrerelease v)) repo) := by
  have hrc : get_init_rc_tag tag = .ok (renderBase v ++ "-rc.1") := by
    simp [get_init_rc_tag, hm, hp]
  simp [increment_prerelease_tag, hm, hrc, hp]

theorem parse_pre_shape {tag : String} {v : VersionInfo} (hm : matchesPre tag = true)
    (hp : parseSemver tag = some v) : ∃ ch n, v.prerelease = some (ch, n) := by
  unfold parseSemver at hp
  unfold matchesPre at hm
  rcases hb : matchBase tag.data with _ | ⟨a, b, c, rest⟩ <;> rw [hb] at hp hm
  · simp at hm
  · dsimp only [] at hp
    rcases hA : strictNum? a with _ | M <;> rw [hA] at hp
    · simp at hp
    · rcases hB : strictNum? b with _ | mm <;> rw [hB] at hp
      · simp at hp
      · rcases hC : strictNum? c with _ | pp <;> rw [hC] at hp
        · simp at hp
        · rcases rest with _ | ⟨c0, r⟩
          · simp at hm
          · split at hm
            · rename_i f1 f2 f3 rr heq
              simp only [Option.some.injEq, Prod.mk.injEq, List.cons.injEq] at heq
              obtain ⟨-, -, -, hc0, hrr⟩ := heq
              subst hc0
              subst hrr
              rcases hT : parseTail ('-' :: r) with _ | pre <;> rw [hT] at hp
              · simp at hp
              · simp only [parseTail] at hT
                rcases hq : parsePreTail r with _ | pr <;> rw [hq] at hT
                · simp at hT
                · simp only [Option.some.injEq] at hT
                  subst hT
                  simp only [Option.some.injEq] at hp
                  exact ⟨pr.1, pr.2, by rw [← hp]⟩
            · simp at hm

theorem seed_render_major (v : VersionInfo) (chan : String) :
    renderVersion (bumpMajor v) ++ "-" ++ chan ++ ".1" =
      renderVersion ⟨v.major + 1, 0, 0, some (chan, 1)⟩ := by
  rw [show renderVersion (bumpMajor v) = mkProd (v.major + 1) 0 0 from rfl, seed_eq]
  rfl

theorem seed_render_minor (v : VersionInfo) (chan : String) :
    renderVersion (bumpMinor v) ++ "-" ++ chan ++ ".1" =
      renderVersion ⟨v.major, v.minor + 1, 0, some (chan, 1)⟩ := by
  rw [show renderVersion (bumpMinor v) = mkProd v.major (v.minor + 1) 0 from rfl, seed_eq]
  rfl

theorem semverLe_bump_major (v : VersionInfo) (chan : String) :
    semverLe v ⟨v.major + 1, 0, 0, some (chan, 1)⟩ = true := by
  have hM : cmpNat v.major (v.major + 1) = .lt := cmpNat_lt.2 (by omega)
  simp [semverLe, semverCmp, hM, Ordering.then]

theorem semverLe_bump_minor (v : VersionInfo) (chan : String) :
    semverLe v ⟨v.major, v.minor + 1, 0, some (chan, 1)⟩ = true := by
  have hM : cmpNat v.major v.major = .eq := cmpNat_eq.2 rfl
  have hm : cmpNat v.minor (v.minor + 1) = .lt := cmpNat_lt.2 (by omega)
  simp [semverLe, semverCmp, hM, hm, Ordering.then]

theorem semverLe_bump_pre {v : VersionInfo} {ch : String} {n : Nat}
    (hpre : v.prerelease = some (ch, n)) : semverLe v (bumpPrerelease v) = true := by
  have hM : cmpNat v.major v.major = .eq := cmpNat_eq.2 rfl
  have hmi : cmpNat v.minor v.minor = .eq := cmpNat_eq.2 rfl
  have hpa : cmpNat v.patch v.patch = .eq := cmpNat_eq.2 rfl
  have hs : cmpStr ch ch = .eq := cmpStr_eq.2 rfl
  have hn : cmpNat n (n + 1) = .lt := cmpNat_lt.2 (by omega)
  simp [semverLe, semverCmp, bumpPrerelease, hpre, cmpPre, hM, hmi, hpa, hs, hn, Ordering.then]

end Vcm

namespace Vcm

/-! ## The claims -/

/-- C1 (amended): for every `baseTag` matching the prerelease grammar that the
SemVer parser also accepts (equivalently, whose numeric fields have no leading
zeros), `advance` (`increment_prerelease_tag`) checks whether the derived
initial RC tag name for `baseTag`'s base version is reported present by the
repository existence check; if so it returns the seed `"{newBase}-{channel}.1"`
with `newBase` the major bump (when `majorBump`) or minor bump of the base
version, and otherwise it returns `baseTag` with its trailing prerelease
ordinal bumped by 1. -/
theorem C1_advance (tag chan : String) (mb : Bool) (repo : Repo) (v : VersionInfo)
    (hm : matchesPre tag = true) (hp : parseSemver tag = some v) :
    (increment_prerelease_tag (some tag) chan mb repo).1 =
      if find_tag (renderBase v ++ "-rc.1") repo then
        .ok ((if mb then renderVersion (bumpMajor v) else renderVersion (bumpMinor v))
          ++ "-" ++ chan ++ ".1")
      else .ok (renderVersion (bumpPrerelease v)) := by
  rw [increment_eq_of_parse hm hp]
  by_cases h : find_tag (renderBase v ++ "-rc.1") repo = true
  · simp only [h, if_true]
    cases mb <;> simp
  · have h' : find_tag (renderBase v ++ "-rc.1") repo = false := by
      simpa using h
    simp [h']

/-- C1 witness, the claim's own scenario: `advance("1.0.0-dev.5")` with
`majorBump=true` in a repository containing `"1.0.0-rc.1"` returns
`"2.0.0-dev.1"`. -/
theorem C1_advance_witness :
    (increment_prerelease_tag (some "1.0.0-dev.5") "dev" true ["1.0.0-rc.1"]).1 =
      .ok "2.0.0-dev.1" := by
  have h := C1_advance "1.0.0-dev.5" "dev" true ["1.0.0-rc.1"] ⟨1, 0, 0, some ("dev", 5)⟩ rfl rfl
  rw [h]
  rfl

/-- C1 counterexample: the string `"01.0.0-dev.1"` matches the claimed
prerelease grammar, yet `advance` reports a format error (the SemVer parser
rejects leading zeros) instead of returning the RC-existence-dependent seed or
ordinal bump the claim describes. -/
theorem C1_leading_zero_counterexample :
    matchesPre "01.0.0-dev.1" = true ∧
      (increment_prerelease_tag (some "01.0.0-dev.1") "dev" true []).1 = .error .valueError :=
  ⟨rfl, rfl⟩

/-- C2 counterexample: the string `"01.0.0-rc.1"` matches the promote grammar
`^\d+\.\d+\.\d+-(rc|patch)\.\d+$` with channel `rc`, yet `promote`
(`create_prod_tag`) reports a format error (the SemVer parser rejects leading
zeros) instead of returning the base `"01.0.0"` as the claim states. -/
theorem C2_leading_zero_counterexample :
    matchPromote "01.0.0-rc.1" = some false ∧
      (create_prod_tag "01.0.0-rc.1" []).1 = .error .valueError :=
  ⟨rfl, rfl⟩

/-- C2 (amended): for every tag of the form `X.Y.Z-rc.N` or `X.Y.Z-patch.N`
with canonically rendered numeric fields (no leading zeros), `promote`
(`create_prod_tag`) returns `bump_patch(base(tag))` when the channel is
`patch` and `base(tag)` unchanged when the channel is `rc`; for every input
string not matching the promote grammar it reports a format error. -/
theorem C2_promote :
    (∀ (M m p N : Nat) (repo : Repo),
        (create_prod_tag (mkPre M m p "rc" N) repo).1 = .ok (mkProd M m p)) ∧
    (∀ (M m p N : Nat) (repo : Repo),
        (create_prod_tag (mkPre M m p "patch" N) repo).1 = .ok (mkProd M m (p + 1))) ∧
    (∀ (s : String) (repo : Repo), matchPromote s = none →
        (create_prod_tag s repo).1 = .error .valueError) := by
  refine ⟨?_, ?_, ?_⟩
  · intro M m p N repo
    simp [create_prod_tag, matchPromote_rc M m p N, parse_mkPre M m p N "rc" (by decide),
      renderBase, mkProd]
  · intro M m p N repo
    simp [create_prod_tag, matchPromote_patch M m p N, parse_mkPre M m p N "patch" (by decide),
      bumpPatch, renderVersion, renderBase, mkProd]
  · intro s repo h
    simp [create_prod_tag, h]

/-- C2 witness, the claim's own scenario: `promote("1.0.0-patch.1")` returns
`"1.0.1"`, and a non-matching input reports a format error. -/
theorem C2_promote_witness :
    (create_prod_tag "1.0.0-patch.1" []).1 = .ok "1.0.1" ∧
      (create_prod_tag "not-a-version" []).1 = .error .valueError := by
  constructor
  · have h := C2_promote.2.1 1 0 0 1 []
    have e1 : mkPre 1 0 0 "patch" 1 = "1.0.0-patch.1" := rfl
    have e2 : mkProd 1 0 1 = "1.0.1" := rfl
    rw [e1, e2] at h
    exact h
  · exact C2_promote.2.2 "not-a-version" [] rfl

/-- C3: for every base matching the `X.Y.Z` grammar, if a production tag named
exactly `base` exists in the repository then `incrementPrerelease(base, "rc")`
(`increment_rc_patch`) fails with the illegal-transition error
`InvalidTagCreation` and leaves the repository unchanged (creates no tag);
consequently, once `promote` (`create_prod_tag`) creates a production tag `P`,
every subsequent `incrementPrerelease(P, "rc")` call on a repository containing
`P` fails with that illegal-transition error. -/
theorem C3_prod_blocks_rc :
    (∀ (base : String) (repo : Repo), matchesProd base = true → base ∈ repo →
        increment_rc_patch base "rc" repo = (.error (.invalidTagCreation rcBlockMsg), repo)) ∧
    (∀ (tag : String) (repo : Repo) (P : String) (repo2 : Repo),
        create_prod_tag tag repo = (.ok P, repo2) →
          P ∈ repo2 ∧ matchesProd P = true ∧
            ∀ repo3 : Repo, P ∈ repo3 →
              increment_rc_patch P "rc" repo3 =
                (.error (.invalidTagCreation rcBlockMsg), repo3)) := by
  have part1 : ∀ (base : String) (repo : Repo), matchesProd base = true → base ∈ repo →
      increment_rc_patch base "rc" repo = (.error (.invalidTagCreation rcBlockMsg), repo) := by
    intro base repo hg hmem
    have hf : find_tag base repo = true := find_tag_of_mem hmem
    simp [increment_rc_patch, hg, hf]
  refine ⟨part1, ?_⟩
  intro tag repo P repo2 h
  unfold create_prod_tag at h
  rcases hmp : matchPromote tag with _ | isPatch <;> rw [hmp] at h
  · simp at h
  · rcases hps : parseSemver tag with _ | v <;> rw [hps] at h
    · simp at h
    · simp only [Prod.mk.injEq, Except.ok.injEq] at h
      obtain ⟨hP, hrepo⟩ := h
      have hprod : matchesProd P = true := by
        rw [← hP]
        cases isPatch
        · simp only [Bool.false_eq_true, if_false]
          exact matchesProd_mkProd v.major v.minor v.patch
        · simp only [if_true]
          exact matchesProd_mkProd v.major v.minor (v.patch + 1)
      have hmem2 : P ∈ repo2 := by
        rw [← hrepo, ← hP]
        simp [create_tag]
      exact ⟨hmem2, hprod, fun repo3 hm3 => part1 P repo3 hprod hm3⟩

/-- C3 witness: with production tag `"1.0.0"` present,
`incrementPrerelease("1.0.0", "rc")` fails with the illegal transition. -/
theorem C3_prod_blocks_rc_witness :
    increment_rc_patch "1.0.0" "rc" ["1.0.0"] =
      (.error (.invalidTagCreation rcBlockMsg), ["1.0.0"]) :=
  C3_prod_blocks_rc.1 "1.0.0" ["1.0.0"] rfl (by simp)

/-- C4 (code bug): with base `"1.0.0"`, channel `"patch"`, and a repository
whose only tag is `"1a0b0"`, no production tag named `"1.0.0"` exists, so the
claim requires an illegal-transition failure; the code instead returns `None`
and no error, because `find_tag` interpolates the base into a regex without
escaping and the dots match the letters of `"1a0b0"`, contradicting
`find_tag`'s own docstring ("exact match search"). -/
theorem C4_patch_guard_wildcard :
    increment_rc_patch "1.0.0" "patch" ["1a0b0"] = (.ok none, ["1a0b0"]) ∧
      (["1a0b0"] : List String).contains "1.0.0" = false :=
  ⟨rfl, rfl⟩

/-- C5: for every repository whose highest dev-channel tag exists (the
`get_current_tag "dev"` query returns a tag `t`), calling `initRC`
(`init_new_rc`) and then `promote` (`create_prod_tag`) on the returned RC tag,
with no intervening increments, yields a production tag equal to the base
version of `t`. -/
theorem C5_roundtrip (repo : Repo) (t : String)
    (h : get_current_tag "dev" false repo = .ok (some t)) :
    ∃ v : VersionInfo, parseSemver t = some v ∧
      ∃ repo2 : Repo,
        init_new_rc "dev" repo = (.ok (some (renderBase v ++ "-rc.1")), repo2) ∧
        (create_prod_tag (renderBase v ++ "-rc.1") repo2).1 = .ok (renderBase v) := by
  have h' : find_tag_with_pattern (matchesChan "dev") repo = .ok (some t) := h
  unfold find_tag_with_pattern at h'
  rcases hpa : parseAll (repo.filter (matchesChan "dev")) with _ | tvs <;> rw [hpa] at h'
  · simp at h'
  · simp only [Except.ok.injEq] at h'
    rcases hpm : pickMax tvs with _ | b <;> rw [hpm] at h'
    · simp at h'
    · simp at h'
      subst h'
      obtain ⟨hbmem, _⟩ := pickMax_spec hpm
      obtain ⟨_, hall⟩ := parseAll_spec hpa
      have hpt : parseSemver b.1 = some b.2 := hall b hbmem
      refine ⟨b.2, hpt, ?_⟩
      have hstep : init_new_rc "dev" repo =
          (.ok (some (renderBase b.2 ++ "-rc.1")),
            create_tag (renderBase b.2 ++ "-rc.1") repo) := by
        simp [init_new_rc, h, hpt]
      refine ⟨_, hstep, ?_⟩
      rw [rcOne_eq]
      have hmm := matchPromote_rc b.2.major b.2.minor b.2.patch 1
      have hp2 := parse_mkPre b.2.major b.2.minor b.2.patch 1 "rc" (by decide)
      simp [create_prod_tag, hmm, hp2, renderBase]

/-- C5 witness: from the repository `["1.2.3-dev.4"]`, `initRC` then `promote`
produces the production tag for base `1.2.3`. -/
theorem C5_roundtrip_witness :
    ∃ v : VersionInfo, parseSemver "1.2.3-dev.4" = some v ∧
      ∃ repo2 : Repo,
        init_new_rc "dev" ["1.2.3-dev.4"] = (.ok (some (renderBase v ++ "-rc.1")), repo2) ∧
        (create_prod_tag (renderBase v ++ "-rc.1") repo2).1 = .ok (renderBase v) :=
  C5_roundtrip ["1.2.3-dev.4"] "1.2.3-dev.4" rfl

/-- C6: for every tag and every repository state in which `advance`
(`increment_prerelease_tag`) succeeds, the SemVer value of the returned tag
compares greater than or equal to the parsed input tag under the SemVer total
order, in every branch (ordinal bump, minor-bump seed, major-bump seed). -/
theorem C6_advance_monotone (tag chan : String) (mb : Bool) (repo repo2 : Repo) (t2 : String)
    (h : increment_prerelease_tag (some tag) chan mb repo = (.ok t2, repo2)) :
    ∃ v w, parseSemver tag = some v ∧ t2 = renderVersion w ∧ semverLe v w = true := by
  by_cases hm : matchesPre tag = true
  · rcases hp : parseSemver tag with _ | v
    · have hg : get_init_rc_tag tag = .error .valueError := by
        simp [get_init_rc_tag, hm, hp]
      simp [increment_prerelease_tag, hm, hg] at h
    · rw [increment_eq_of_parse hm hp] at h
      obtain ⟨ch, n, hpre⟩ := parse_pre_shape hm hp
      by_cases hf : find_tag (renderBase v ++ "-rc.1") repo = true
      · simp only [hf, if_true] at h
        simp only [Prod.mk.injEq, Except.ok.injEq] at h
        obtain ⟨ht2, -⟩ := h
        cases mb
        · refine ⟨v, ⟨v.major, v.minor + 1, 0, some (chan, 1)⟩, rfl, ?_, ?_⟩
          · rw [← ht2]
            simp only [Bool.false_eq_true, if_false]
            exact seed_render_minor v chan
          · exact semverLe_bump_minor v chan
        · refine ⟨v, ⟨v.major + 1, 0, 0, some (chan, 1)⟩, rfl, ?_, ?_⟩
          · rw [← ht2]
            simp only [if_true]
            exact seed_render_major v chan
          · exact semverLe_bump_major v chan
      · simp only [hf, Bool.false_eq_true, if_false, Prod.mk.injEq, Except.ok.injEq] at h
        obtain ⟨ht2, -⟩ := h
        exact ⟨v, bumpPrerelease v, rfl, ht2.symm, semverLe_bump_pre hpre⟩
  · have hm' : matchesPre tag = false := by simpa using hm
    simp [increment_prerelease_tag, hm'] at h

/-- C6 witness: `advance("1.0.0-dev.5")` on an empty repository returns
`"1.0.0-dev.6"`, which compares above the input. -/
theorem C6_advance_monotone_witness :
    ∃ v w, parseSemver "1.0.0-dev.5" = some v ∧ "1.0.0-dev.6" = renderVersion w ∧
      semverLe v w = true :=
  C6_advance_monotone "1.0.0-dev.5" "dev" false [] ["1.0.0-dev.6"] "1.0.0-dev.6" rfl

/-- C7 (code bug): `exists` (`find_tag`) is claimed to be a literal
string-equality test, so the query `"1.0.0"` must never be matched by a
distinct tag string; but on the repository `["1a0b0"]` the code returns true
even though no tag is string-equal to `"1.0.0"`, because the unescaped dots of
the query act as regex wildcards, contradicting the function's own docstring
("exact match search"). -/
theorem C7_find_tag_wildcard :
    find_tag "1.0.0" ["1a0b0"] = true ∧ (["1a0b0"] : List String).contains "1.0.0" = false :=
  ⟨rfl, rfl⟩

/-- C8 counterexample: the tag `"01.0.0"` fully matches the production grammar
`^\d+\.\d+\.\d+$`, yet SemVer parsing fails on it (leading zero), and
`highestMatching` (`find_tag_with_pattern`) on a repository containing it
fails with a format error instead of returning a tag or none. -/
theorem C8_leading_zero_counterexample :
    matchesProd "01.0.0" = true ∧ parseSemver "01.0.0" = none ∧
      find_tag_with_pattern matchesProd ["01.0.0"] = .error .valueError :=
  ⟨rfl, rfl, rfl⟩

/-- C8 (amended): canonically rendered tags (numeric fields without leading
zeros) of production or prerelease-in-channel shape are guaranteed SemVer
parseable, and `highestMatching` (`find_tag_with_pattern`) is total on every
repository whose pattern-matching tags are all parseable: it returns none
exactly on an empty candidate set and otherwise a matching candidate whose
parsed value compares greatest under the SemVer total order. -/
theorem C8_total :
    (∀ M m p : Nat, parseSemver (mkProd M m p) = some ⟨M, m, p, none⟩) ∧
    (∀ (M m p N : Nat) (ch : String), chanOK ch = true →
        parseSemver (mkPre M m p ch N) = some ⟨M, m, p, some (ch, N)⟩) ∧
    (∀ (pat : String → Bool) (repo : Repo),
        (∀ t ∈ repo, pat t = true → (parseSemver t).isSome = true) →
        (find_tag_with_pattern pat repo = .ok none ∧ repo.filter pat = []) ∨
          ∃ t v, find_tag_with_pattern pat repo = .ok (some t) ∧ t ∈ repo.filter pat ∧
            parseSemver t = some v ∧
            ∀ s w, s ∈ repo.filter pat → parseSemver s = some w → semverCmp v w ≠ .lt) := by
  refine ⟨parse_mkProd, fun M m p N ch hch => parse_mkPre M m p N ch hch, ?_⟩
  intro pat repo hall
  have hfil : ∀ t ∈ repo.filter pat, (parseSemver t).isSome = true := by
    intro t ht
    obtain ⟨hmem, hpt⟩ := List.mem_filter.1 ht
    exact hall t hmem hpt
  obtain ⟨tvs, htvs⟩ := parseAll_total hfil
  obtain ⟨hkeys, hsound⟩ := parseAll_spec htvs
  unfold find_tag_with_pattern
  rw [htvs]
  rcases hpm : pickMax tvs with _ | b
  · left
    have he : tvs = [] := pickMax_none hpm
    subst he
    simp only [List.map_nil] at hkeys
    exact ⟨by simp [hpm], hkeys.symm⟩
  · right
    obtain ⟨hbmem, hbmax⟩ := pickMax_spec hpm
    refine ⟨b.1, b.2, by simp [hpm], ?_, hsound b hbmem, ?_⟩
    · rw [← hkeys]
      exact List.mem_map_of_mem Prod.fst hbmem
    · intro s w hs hw
      rw [← hkeys] at hs
      obtain ⟨q, hq, hq1⟩ := List.mem_map.1 hs
      have hqs := hsound q hq
      rw [hq1, hw] at hqs
      have hw2 : w = q.2 := by
        injection hqs
      rw [hw2]
      exact hbmax q hq

/-- C8 witness: a canonically rendered prerelease tag parses to its
components. -/
theorem C8_total_witness :
    parseSemver (mkPre 1 2 3 "dev" 4) = some ⟨1, 2, 3, some ("dev", 4)⟩ :=
  C8_total.2.1 1 2 3 4 "dev" rfl

/-- C9: for every valid base `X.Y.Z`, every nonempty lowercase-letter channel
name and every positive ordinal `N`, `deriveInitialRC` (`get_init_rc_tag`)
applied to `"{base}-{channel}.{N}"` returns `"{base}-rc.1"`; for every input
string not matching `^\d+\.\d+\.\d+-[a-z]+\.\d+$` it reports a format
error. -/
theorem C9_derive_rc :
    (∀ (M m p N : Nat) (ch : String), chanOK ch = true → 1 ≤ N →
        get_init_rc_tag (mkPre M m p ch N) = .ok (mkProd M m p ++ "-rc.1")) ∧
    (∀ s : String, matchesPre s = false → get_init_rc_tag s = .error .valueError) := by
  constructor
  · intro M m p N ch hch _
    have h1 := matchesPre_mkPre M m p N ch hch
    have h2 := parse_mkPre M m p N ch hch
    simp [get_init_rc_tag, h1, h2, renderBase, mkProd]
  · intro s h
    simp [get_init_rc_tag, h]

/-- C9 witness: `deriveInitialRC("1.0.0-dev.5")` returns `"1.0.0-rc.1"`. -/
theorem C9_derive_rc_witness :
    get_init_rc_tag "1.0.0-dev.5" = .ok "1.0.0-rc.1" := by
  have h := C9_derive_rc.1 1 0 0 5 "dev" rfl (by omega)
  have e1 : mkPre 1 0 0 "dev" 5 = "1.0.0-dev.5" := rfl
  have e2 : mkProd 1 0 0 ++ "-rc.1" = "1.0.0-rc.1" := rfl
  rw [e1, e2] at h
  exact h

/-- C10: for every base matching the `X.Y.Z` grammar and every channel other
than `"rc"` and `"patch"`, `increment_rc_patch` reaches its final lookup with
the `current_rc` variable never assigned and crashes with Python's
unbound-local-variable error (modelled as `VcmError.unboundLocal`) rather than
returning none or an ordinary format / illegal-transition error: the operation
is total only for the channels `"rc"` and `"patch"`. -/
theorem C10_unbound_channel (base chan : String) (repo : Repo)
    (hg : matchesProd base = true) (h1 : chan ≠ "rc") (h2 : chan ≠ "patch") :
    increment_rc_patch base chan repo = (.error .unboundLocal, repo) := by
  simp [increment_rc_patch, hg, h1, h2]

/-- C10 witness: `increment_rc_patch("1.0.0", "dev")` crashes with the
unbound-local error. -/
theorem C10_unbound_channel_witness :
    increment_rc_patch "1.0.0" "dev" [] = (.error .unboundLocal, []) :=
  C10_unbound_channel "1.0.0" "dev" [] rfl (by decide) (by decide)

end Vcm
